import Mathlib

/-!
# Verification of the rclone-backup-web backup core

Shallow embedding of the backup execution pipeline, the remote-state-driven
retention engine and the maintenance sweep of `services/backup_service.py`
and `services/scheduler_service.py`, together with proofs of the spec's
claims about them.

Conventions:
* Python `str` values are modelled as `List Char` (Python compares and splits
  strings by code point, which coincides with `Char` order).
* Python `bytes` values are modelled as `List Nat` with every entry `< 256`.
* Database rows are modelled as Lean structures; an ORM "query + mutate loop"
  becomes a pure function from the old table to the new table.
* External collaborators (the rclone transfer gateway, `hashlib`, the Fernet
  cipher) are parameters of the definitions that call them.
-/

/-! ## Base64 (`base64.b64encode` / `b64decode` / `urlsafe_b64encode`)

`_encrypt_password` stores `base64.b64encode(password)`, `_decrypt_password`
inverts it, and `_generate_key_from_password` produces
`base64.urlsafe_b64encode(sha256(password).digest())`
(backup_service.py lines 406-419).  We model base64 at the sextet level and
then apply the alphabet. -/

/-- Encode a byte list into base64 sextet values; `64` is the padding symbol. -/
def b64EncSex : List Nat → List Nat
  | [] => []
  | [b0] => [b0 / 4, b0 % 4 * 16, 64, 64]
  | [b0, b1] => [b0 / 4, b0 % 4 * 16 + b1 / 16, b1 % 16 * 4, 64]
  | b0 :: b1 :: b2 :: rest =>
      b0 / 4 :: (b0 % 4 * 16 + b1 / 16) :: (b1 % 16 * 4 + b2 / 64) :: b2 % 64 ::
        b64EncSex rest

/-- Decode base64 sextet values (with `64` as padding) back into bytes. -/
def b64DecSex : List Nat → List Nat
  | c0 :: c1 :: c2 :: c3 :: rest =>
      if c2 = 64 then [c0 * 4 + c1 / 16]
      else if c3 = 64 then [c0 * 4 + c1 / 16, c1 % 16 * 16 + c2 / 4]
      else (c0 * 4 + c1 / 16) :: (c1 % 16 * 16 + c2 / 4) :: (c2 % 4 * 64 + c3) ::
        b64DecSex rest
  | _ => []

theorem b64DecSex_b64EncSex :
    ∀ (l : List Nat), (∀ b ∈ l, b < 256) → b64DecSex (b64EncSex l) = l
  | [], _ => rfl
  | [b0], h => by
      have h0 := h b0 (by simp)
      simp only [b64EncSex, b64DecSex, if_pos rfl, if_true, List.cons.injEq, and_true]
      omega
  | [b0, b1], h => by
      have h0 := h b0 (by simp)
      have h1 := h b1 (by simp)
      have hne : ¬ b1 % 16 * 4 = 64 := by omega
      simp only [b64EncSex, b64DecSex, if_neg hne, if_pos rfl, if_true, List.cons.injEq,
        and_true]
      omega
  | b0 :: b1 :: b2 :: rest, h => by
      have h0 := h b0 (by simp)
      have h1 := h b1 (by simp)
      have h2 := h b2 (by simp)
      have hne2 : ¬ (b1 % 16 * 4 + b2 / 64) = 64 := by omega
      have hne3 : ¬ b2 % 64 = 64 := by omega
      have ih := b64DecSex_b64EncSex rest (fun b hb => h b (by simp [hb]))
      simp only [b64EncSex, b64DecSex, if_neg hne2, if_neg hne3, ih, List.cons.injEq,
        and_true]
      omega

theorem b64EncSex_le (l : List Nat) (hl : ∀ b ∈ l, b < 256) :
    ∀ s ∈ b64EncSex l, s ≤ 64 := by
  induction l using b64EncSex.induct with
  | case1 => simp [b64EncSex]
  | case2 b0 =>
      have h0 := hl b0 (by simp)
      simp only [b64EncSex, List.mem_cons, List.not_mem_nil, or_false]
      rintro s (rfl | rfl | rfl | rfl) <;> omega
  | case3 b0 b1 =>
      have h0 := hl b0 (by simp)
      have h1 := hl b1 (by simp)
      simp only [b64EncSex, List.mem_cons, List.not_mem_nil, or_false]
      rintro s (rfl | rfl | rfl | rfl) <;> omega
  | case4 b0 b1 b2 rest ih =>
      have h0 := hl b0 (by simp)
      have h1 := hl b1 (by simp)
      have h2 := hl b2 (by simp)
      have ih' := ih (fun b hb => hl b (by simp [hb]))
      simp only [b64EncSex, List.mem_cons]
      rintro s (rfl | rfl | rfl | rfl | hs)
      · omega
      · omega
      · omega
      · omega
      · exact ih' s hs

/-- The standard base64 alphabet (`base64.b64encode`). -/
def b64AlphaStd : List Char :=
  "ABCDEFGHIJKLMNOPQRSTUVWXYZabcdefghijklmnopqrstuvwxyz0123456789+/".data

/-- The URL-safe base64 alphabet (`base64.urlsafe_b64encode`). -/
def b64AlphaUrl : List Char :=
  "ABCDEFGHIJKLMNOPQRSTUVWXYZabcdefghijklmnopqrstuvwxyz0123456789-_".data

/-- Map a sextet value (or the padding marker `64`) to its base64 character. -/
def b64CharOf (alpha : List Char) (s : Nat) : Char :=
  if s = 64 then '=' else alpha.getD s ' '

/-- Map a base64 character back to its sextet value (padding maps to `64`). -/
def b64ValOf (alpha : List Char) (c : Char) : Nat :=
  if c = '=' then 64 else alpha.indexOf c

/-- `base64.b64encode`-style encoding of bytes into characters. -/
def b64EncodeWith (alpha : List Char) (bytes : List Nat) : List Char :=
  (b64EncSex bytes).map (b64CharOf alpha)

/-- `base64.b64decode`-style decoding of characters into bytes. -/
def b64DecodeWith (alpha : List Char) (chars : List Char) : List Nat :=
  b64DecSex (chars.map (b64ValOf alpha))

theorem b64ValOf_b64CharOf_std : ∀ s < 65, b64ValOf b64AlphaStd (b64CharOf b64AlphaStd s) = s := by
  decide

theorem b64ValOf_b64CharOf_url : ∀ s < 65, b64ValOf b64AlphaUrl (b64CharOf b64AlphaUrl s) = s := by
  decide

theorem b64DecodeWith_b64EncodeWith (alpha : List Char)
    (halpha : ∀ s < 65, b64ValOf alpha (b64CharOf alpha s) = s)
    (bytes : List Nat) (h : ∀ b ∈ bytes, b < 256) :
    b64DecodeWith alpha (b64EncodeWith alpha bytes) = bytes := by
  unfold b64DecodeWith b64EncodeWith
  rw [List.map_map]
  have heq : (b64EncSex bytes).map (b64ValOf alpha ∘ b64CharOf alpha)
      = (b64EncSex bytes).map id := by
    apply List.map_congr_left
    intro s hs
    exact halpha s (Nat.lt_succ_of_le (b64EncSex_le bytes h s hs))
  rw [heq, List.map_id]
  exact b64DecSex_b64EncSex bytes h

/-- `BackupService._encrypt_password` (backup_service.py lines 406-409):
stores the password as plain `base64.b64encode`. -/
def encrypt_password (password : List Nat) : List Char :=
  b64EncodeWith b64AlphaStd password

/-- `BackupService._decrypt_password` (backup_service.py lines 411-413). -/
def decrypt_password (stored : List Char) : List Nat :=
  b64DecodeWith b64AlphaStd stored

/-- C10: the "encrypted" password persisted on a task is plain base64 of the
plaintext, a key-less invertible transformation, so
`_decrypt_password (_encrypt_password p) = p` for every byte string `p`. -/
theorem password_store_roundtrip (p : List Nat) (h : ∀ b ∈ p, b < 256) :
    decrypt_password (encrypt_password p) = p :=
  b64DecodeWith_b64EncodeWith b64AlphaStd b64ValOf_b64CharOf_std p h

theorem password_store_roundtrip_witness :
    (∀ b ∈ ([104, 117, 110, 116, 101, 114, 50] : List Nat), b < 256) ∧
    decrypt_password (encrypt_password [104, 117, 110, 116, 101, 114, 50])
      = [104, 117, 110, 116, 101, 114, 50] :=
  ⟨by decide, password_store_roundtrip [104, 117, 110, 116, 101, 114, 50] (by decide)⟩

/-! ## Python string and list primitives used by the retention engine -/

/-- Python `s.split(sep)` for a one-character separator: `"".split(sep) = [""]`,
and every occurrence of the separator opens a new (possibly empty) chunk. -/
def pySplit (sep : Char) : List Char → List (List Char)
  | [] => [[]]
  | c :: rest =>
      match pySplit sep rest with
      | [] => [[]]
      | g :: gs => if c = sep then [] :: g :: gs else (c :: g) :: gs

/-- Python `l[:-n]`: all but the last `n` elements, except that `l[:-0]` is
`l[:0] = []`. -/
def pyDropLast (l : List α) (n : Nat) : List α :=
  if n = 0 then [] else l.take (l.length - n)

/-- Python `s.rstrip('/')`. -/
def pyRstripSlash (s : List Char) : List Char :=
  ((s.reverse).dropWhile (· = '/')).reverse

/-- Python `<=` on strings: lexicographic comparison by code point. -/
def strLe : List Char → List Char → Bool
  | [], _ => true
  | _ :: _, [] => false
  | a :: as, b :: bs =>
      if a.toNat < b.toNat then true
      else if b.toNat < a.toNat then false
      else strLe as bs

theorem strLe_total : ∀ a b : List Char, strLe a b || strLe b a
  | [], _ => by simp [strLe]
  | _ :: _, [] => by simp [strLe]
  | a :: as, b :: bs => by
      by_cases hab : a.toNat < b.toNat
      · simp [strLe, hab]
      · by_cases hba : b.toNat < a.toNat
        · simp [strLe, hab, hba]
        · simpa [strLe, hab, hba] using strLe_total as bs

theorem strLe_trans : ∀ a b c : List Char, strLe a b → strLe b c → strLe a c
  | [], _, _, _, _ => by simp [strLe]
  | _ :: _, [], _, hab, _ => by simp [strLe] at hab
  | _ :: _, _ :: _, [], _, hbc => by simp [strLe] at hbc
  | a :: as, b :: bs, c :: cs, hab, hbc => by
      simp only [strLe] at hab hbc ⊢
      by_cases h₁ : a.toNat < b.toNat
      · by_cases h₂ : b.toNat < c.toNat
        · have : a.toNat < c.toNat := by omega
          simp [this]
        · simp only [if_neg h₂] at hbc
          by_cases h₃ : c.toNat < b.toNat
          · simp [h₃] at hbc
          · have : a.toNat < c.toNat := by omega
            simp [this]
      · simp only [if_neg h₁] at hab
        by_cases h₄ : b.toNat < a.toNat
        · simp [h₄] at hab
        · simp only [if_neg h₄] at hab
          by_cases h₂ : b.toNat < c.toNat
          · have : a.toNat < c.toNat := by omega
            simp [this]
          · simp only [if_neg h₂] at hbc
            by_cases h₃ : c.toNat < b.toNat
            · simp [h₃] at hbc
            · simp only [if_neg h₃] at hbc
              have hac : ¬ a.toNat < c.toNat := by omega
              have hca : ¬ c.toNat < a.toNat := by omega
              simp only [if_neg hac, if_neg hca]
              exact strLe_trans as bs cs hab hbc

/-- Insert a name into a sorted list of names, keeping it sorted. -/
def insertSorted (a : List Char) : List (List Char) → List (List Char)
  | [] => [a]
  | b :: l => if strLe a b then a :: b :: l else b :: insertSorted a l

/-- Model of Python's `task_files.sort(key=...)` on the listed names
(backup_service.py line 724): a sort by the code-point order `strLe`.
Python's sort is stable, and under `strLe` two names compare equal only when
their code points coincide, so every sort of the same listing produces this
list; we use insertion sort, which is structural and hence computable by the
kernel. -/
def sortNames : List (List Char) → List (List Char)
  | [] => []
  | a :: l => insertSorted a (sortNames l)

theorem insertSorted_perm (a : List Char) (l : List (List Char)) :
    List.Perm (insertSorted a l) (a :: l) := by
  induction l with
  | nil => simp [insertSorted]
  | cons b l ih =>
      by_cases h : strLe a b
      · simp [insertSorted, h]
      · simp only [insertSorted, if_neg h]
        exact (List.Perm.cons b ih).trans (List.Perm.swap a b l)

theorem sortNames_perm (l : List (List Char)) : List.Perm (sortNames l) l := by
  induction l with
  | nil => simp [sortNames]
  | cons a l ih =>
      exact (insertSorted_perm a (sortNames l)).trans (List.Perm.cons a ih)

theorem length_sortNames (l : List (List Char)) : (sortNames l).length = l.length :=
  (sortNames_perm l).length_eq

theorem insertSorted_pairwise (a : List Char) (l : List (List Char))
    (h : l.Pairwise (strLe · ·)) :
    (insertSorted a l).Pairwise (strLe · ·) := by
  induction l with
  | nil => simp [insertSorted]
  | cons b l ih =>
      rcases List.pairwise_cons.mp h with ⟨hb, hl⟩
      by_cases hab : strLe a b
      · simp only [insertSorted, if_pos hab]
        refine List.pairwise_cons.mpr ⟨?_, h⟩
        intro x hx
        rcases List.mem_cons.mp hx with rfl | hx
        · exact hab
        · exact strLe_trans a b x hab (hb x hx)
      · simp only [insertSorted, if_neg hab]
        have hba : strLe b a := by
          have := strLe_total a b
          simp [hab] at this
          exact this
        refine List.pairwise_cons.mpr ⟨?_, ih hl⟩
        intro x hx
        have hmem : x ∈ a :: l := (insertSorted_perm a l).mem_iff.mp hx
        rcases List.mem_cons.mp hmem with rfl | hx'
        · exact hba
        · exact hb x hx'

theorem sortNames_pairwise (l : List (List Char)) :
    (sortNames l).Pairwise (strLe · ·) := by
  induction l with
  | nil => simp [sortNames]
  | cons a l ih => exact insertSorted_pairwise a (sortNames l) ih

/-! ## The retention engine
(`BackupService._cleanup_old_backups_from_remote_storage`,
backup_service.py lines 686-750) -/

/-- The filename classifier of the retention engine
(backup_service.py lines 705-717): a listed name belongs to the task iff it
starts with `{task.name}_`, splits into at least 3 underscore-separated
tokens, the second-to-last token has length 8 and the last token cut at the
first `.` has length 6. -/
def matchesTaskFile (taskName fileName : List Char) : Bool :=
  let parts := pySplit '_' fileName
  (taskName ++ ['_']).isPrefixOf fileName &&
    decide (3 ≤ parts.length) &&
    (let datePart := parts.getD (parts.length - 2) []
     let timePart := (pySplit '.' (parts.getD (parts.length - 1) [])).headD []
     decide (datePart.length = 8) && decide (timePart.length = 6))

/-- The `task_files` list of the cleanup (backup_service.py lines 703-717):
listed names that the classifier assigns to the task, in listing order. -/
def cleanupTaskFiles (taskName : List Char) (files : List (List Char)) :
    List (List Char) :=
  files.filter (matchesTaskFile taskName)

/-- The `files_to_delete` list of the cleanup
(backup_service.py lines 722-727): when the matches exceed the retention
count, sort by name (Python's stable sort) and keep everything before the
last `retention` entries; otherwise nothing is deleted. -/
def cleanupFilesToDelete (taskName : List Char) (retention : Nat)
    (files : List (List Char)) : List (List Char) :=
  let taskFiles := cleanupTaskFiles taskName files
  if retention < taskFiles.length then
    pyDropLast (sortNames taskFiles) retention
  else []

/-- The delete loop of the cleanup (backup_service.py lines 731-743): every
file of `files_to_delete` gets exactly one delete attempt whose success is
decided by the gateway (`deleteOk`); a failure is logged and the loop goes on. -/
def cleanupDeleteResults (deleteOk : List Char → Bool) (taskName : List Char)
    (retention : Nat) (files : List (List Char)) : List (List Char × Bool) :=
  (cleanupFilesToDelete taskName retention files).map fun n => (n, deleteOk n)

/-- Whole-procedure view of the cleanup (backup_service.py lines 686-750):
`listResult = none` models a failed `list_files` call (the function logs and
returns, issuing no delete); otherwise the delete loop runs.  The surrounding
`try/except` makes the procedure total: it never propagates an error. -/
def cleanupRun (listResult : Option (List (List Char)))
    (deleteOk : List Char → Bool) (taskName : List Char) (retention : Nat) :
    List (List Char × Bool) :=
  match listResult with
  | none => []
  | some files => cleanupDeleteResults deleteOk taskName retention files

/-- C1: for a task with retention_count = `ret ≥ 1` and a successfully listed
remote directory, the cleanup sorts the matching names lexicographically and,
when their number exceeds `ret`, deletes exactly the first (oldest)
`count − ret` of them — every deleted name compares at most every kept name —
leaving exactly `ret` matches; when `count ≤ ret`, no delete is issued. -/
theorem cleanup_retention (taskName : List Char) (ret : Nat)
    (files : List (List Char)) (hret : 1 ≤ ret) :
    (ret < (cleanupTaskFiles taskName files).length →
       cleanupFilesToDelete taskName ret files
         = (sortNames (cleanupTaskFiles taskName files)).take
             ((cleanupTaskFiles taskName files).length - ret) ∧
       (cleanupFilesToDelete taskName ret files).length
         = (cleanupTaskFiles taskName files).length - ret ∧
       (sortNames (cleanupTaskFiles taskName files)).Pairwise (strLe · ·) ∧
       (∀ d ∈ cleanupFilesToDelete taskName ret files,
          ∀ k ∈ (sortNames (cleanupTaskFiles taskName files)).drop
              ((cleanupTaskFiles taskName files).length - ret), strLe d k) ∧
       (cleanupTaskFiles taskName files).length
         - (cleanupFilesToDelete taskName ret files).length = ret) ∧
    ((cleanupTaskFiles taskName files).length ≤ ret →
       cleanupFilesToDelete taskName ret files = []) := by
  constructor
  · intro hlt
    have hne : ret ≠ 0 := by omega
    have hdef : cleanupFilesToDelete taskName ret files
        = (sortNames (cleanupTaskFiles taskName files)).take
            ((cleanupTaskFiles taskName files).length - ret) := by
      unfold cleanupFilesToDelete pyDropLast
      rw [if_pos hlt, if_neg hne, length_sortNames]
    refine ⟨hdef, ?_, sortNames_pairwise _, ?_, ?_⟩
    · rw [hdef, List.length_take, length_sortNames]
      omega
    · intro d hd k hk
      have hpw := sortNames_pairwise (cleanupTaskFiles taskName files)
      rw [← List.take_append_drop
            ((cleanupTaskFiles taskName files).length - ret)
            (sortNames (cleanupTaskFiles taskName files))] at hpw
      have := (List.pairwise_append.mp hpw).2.2
      rw [hdef] at hd
      exact this d hd k hk
    · rw [hdef, List.length_take, length_sortNames]
      omega
  · intro hle
    unfold cleanupFilesToDelete
    rw [if_neg (by omega)]

theorem cleanup_retention_witness :
    (cleanupFilesToDelete "t".data 1
       ["t_20240102_120000.tar.gz".data, "t_20240101_120000.tar.gz".data,
        "notes.txt".data]).length = 1 := by
  have h := (cleanup_retention "t".data 1
    ["t_20240102_120000.tar.gz".data, "t_20240101_120000.tar.gz".data,
     "notes.txt".data] (by decide)).1 (by decide)
  exact h.2.1.trans (by decide)

/-- The classification the spec's sentence describes, stated verbatim for
comparison with the implemented `matchesTaskFile`: the two trailing
underscore-delimited tokens must be an 8-DIGIT date and a 6-DIGIT time
(the time taken before any extension). -/
def specPatternMatches (taskName fileName : List Char) : Bool :=
  let parts := pySplit '_' fileName
  (taskName ++ ['_']).isPrefixOf fileName &&
    decide (3 ≤ parts.length) &&
    (let datePart := parts.getD (parts.length - 2) []
     let timePart := (pySplit '.' (parts.getD (parts.length - 1) [])).headD []
     decide (datePart.length = 8) && datePart.all (fun c => c.isDigit) &&
     decide (timePart.length = 6) && timePart.all (fun c => c.isDigit))

/-- C2 counterexample: the code checks only the LENGTHS of the two trailing
tokens, not that they are digits.  `t_abcdefgh_xyzxyz` does not match the
claimed pattern `{task}_{8-digit-date}_{6-digit-time}*`, yet the cleanup
classifies it as belonging to task `t` and selects it for deletion. -/
theorem cleanup_match_counterexample :
    matchesTaskFile "t".data "t_abcdefgh_xyzxyz".data = true ∧
    specPatternMatches "t".data "t_abcdefgh_xyzxyz".data = false ∧
    cleanupFilesToDelete "t".data 1
        ["t_abcdefgh_xyzxyz".data, "t_zzzzzzzz_zzzzzz".data]
      = ["t_abcdefgh_xyzxyz".data] :=
  ⟨by decide, by decide, by decide⟩

/-- C2 (amended): a listed name is classified as belonging to the task exactly
when it starts with `{task.name}_`, splits into at least 3 underscore
tokens, its second-to-last token is 8 characters long and its last token cut
at the first `.` is 6 characters long — the characters are NOT checked to be
digits — and every delete the cleanup issues targets a name so classified. -/
theorem cleanup_match_characterization (taskName fileName : List Char)
    (ret : Nat) (files : List (List Char)) :
    (matchesTaskFile taskName fileName = true ↔
       ((taskName ++ ['_']).isPrefixOf fileName = true ∧
        3 ≤ (pySplit '_' fileName).length ∧
        ((pySplit '_' fileName).getD ((pySplit '_' fileName).length - 2) []).length = 8 ∧
        ((pySplit '.' ((pySplit '_' fileName).getD
            ((pySplit '_' fileName).length - 1) [])).headD []).length = 6)) ∧
    (∀ n ∈ cleanupFilesToDelete taskName ret files,
       matchesTaskFile taskName n = true) := by
  constructor
  · simp only [matchesTaskFile, Bool.and_eq_true, decide_eq_true_eq]
    tauto
  · intro n hn
    unfold cleanupFilesToDelete at hn
    by_cases hlt : ret < (cleanupTaskFiles taskName files).length
    · rw [if_pos hlt] at hn
      unfold pyDropLast at hn
      by_cases hz : ret = 0
      · simp [hz] at hn
      · rw [if_neg hz] at hn
        have hmem : n ∈ sortNames (cleanupTaskFiles taskName files) :=
          List.take_subset _ _ hn
        have : n ∈ cleanupTaskFiles taskName files :=
          (sortNames_perm _).mem_iff.mp hmem
        exact List.of_mem_filter this
    · rw [if_neg hlt] at hn
      simp at hn

theorem cleanup_match_characterization_witness :
    matchesTaskFile "t".data "t_xxxxxxxx_yyyyyy.zip".data = true :=
  (cleanup_match_characterization "t".data "t_xxxxxxxx_yyyyyy.zip".data 1
     ["t_xxxxxxxx_yyyyyy.zip".data, "t_zzzzzzzz_zzzzzz".data]).2
    "t_xxxxxxxx_yyyyyy.zip".data (by decide)

/-! ## Data model: tasks and run logs (models.py `BackupTask`, `BackupLog`) -/

inductive RunStatus
  | running
  | success
  | failed
deriving DecidableEq, Repr

structure LogRow where
  taskId : Nat
  status : RunStatus
  startTime : Int
  endTime : Option Int
  errorMessage : Option (List Char)
  storageConfigId : Nat
deriving DecidableEq, Repr

structure TaskRow where
  name : List Char
  cronExpression : List Char
  compressionEnabled : Bool
  compressionType : List Char
  encryptionEnabled : Bool
  encryptionPassword : Option (List Char)
  retentionCount : Nat
  isActive : Bool
  lastRunAt : Option Int
  nextRunAt : Option Int
deriving DecidableEq, Repr

/-! ## The execution orchestrator (`_execute_backup_task_async`,
backup_service.py lines 158-255)

The per-destination work `_execute_backup_to_storage` either returns
`(success, message)` or raises; the loop body catches the exception
(lines 220-227).  We abstract one destination's fate as a `DestOutcome`. -/

inductive DestOutcome
  | ok (msg : List Char)
  | err (msg : List Char)
  | exn (msg : List Char)
deriving DecidableEq, Repr

/-- The loop body (lines 196-230): a fresh `running` row is created for the
destination and then driven to its terminal state from the outcome. -/
def destLogRow (taskId : Nat) (startT endT : Int)
    (dest : Nat × DestOutcome) : LogRow :=
  let base : LogRow :=
    { taskId := taskId, status := .running, startTime := startT,
      endTime := none, errorMessage := none, storageConfigId := dest.1 }
  match dest.2 with
  | .ok _ => { base with status := .success, endTime := some endT }
  | .err m =>
      { base with status := .failed, endTime := some endT, errorMessage := some m }
  | .exn m =>
      { base with status := .failed, endTime := some endT, errorMessage := some m }

/-- The loop over all destination bindings (lines 191-230): every binding is
processed, whatever the earlier outcomes were. -/
def runDestinations (taskId : Nat) (startT endT : Int)
    (dests : List (Nat × DestOutcome)) : List LogRow :=
  dests.map (destLogRow taskId startT endT)

/-- The post-loop task update (lines 232-237): `last_run_at` is set
unconditionally; `next_run_at` is recomputed exactly when the run is not
manual and the task has a (non-empty) cron expression. -/
def updateTaskAfterRun (task : TaskRow) (manual : Bool) (now : Int)
    (calcNext : List Char → Option Int) : TaskRow :=
  let t := { task with lastRunAt := some now }
  if manual = false ∧ t.cronExpression ≠ [] then
    { t with nextRunAt := calcNext t.cronExpression }
  else t

/-- `_execute_backup_task_async` (lines 158-241): with no storage bindings the
function logs and returns early (lines 183-185); otherwise it runs the
destination loop and then updates the task.  `calcNext` abstracts
`_calculate_next_run_time`, the clock values are parameters. -/
def executeBackupTaskAsync (task : TaskRow) (taskId : Nat) (manual : Bool)
    (startT endT now : Int) (dests : List (Nat × DestOutcome))
    (calcNext : List Char → Option Int) : TaskRow × List LogRow :=
  if dests.isEmpty then (task, [])
  else (updateTaskAfterRun task manual now calcNext,
        runDestinations taskId startT endT dests)

/-- C3: a failing destination records status=failed with the captured message
and never aborts the run — every binding yields exactly one terminal log row —
and after the loop `last_run_at` is set unconditionally while `next_run_at`
is recomputed exactly when the run is not manual and a cron spec exists. -/
theorem execute_run_partial_failure (task : TaskRow) (taskId : Nat)
    (manual : Bool) (startT endT now : Int)
    (dests : List (Nat × DestOutcome)) (calcNext : List Char → Option Int)
    (hne : dests ≠ []) :
    (executeBackupTaskAsync task taskId manual startT endT now dests calcNext).2.length
        = dests.length ∧
    (∀ i : Fin dests.length,
       (executeBackupTaskAsync task taskId manual startT endT now dests calcNext).2.get?
           i.val = some (destLogRow taskId startT endT (dests.get i))) ∧
    (∀ d : Nat × DestOutcome,
       (destLogRow taskId startT endT d).endTime = some endT ∧
       (destLogRow taskId startT endT d).status ≠ .running ∧
       (∀ m, d.2 = .ok m → (destLogRow taskId startT endT d).status = .success) ∧
       (∀ m, d.2 = .err m → (destLogRow taskId startT endT d).status = .failed ∧
          (destLogRow taskId startT endT d).errorMessage = some m) ∧
       (∀ m, d.2 = .exn m → (destLogRow taskId startT endT d).status = .failed ∧
          (destLogRow taskId startT endT d).errorMessage = some m)) ∧
    (executeBackupTaskAsync task taskId manual startT endT now dests calcNext).1.lastRunAt
        = some now ∧
    (executeBackupTaskAsync task taskId manual startT endT now dests calcNext).1.nextRunAt
        = (if manual = false ∧ task.cronExpression ≠ [] then
             calcNext task.cronExpression else task.nextRunAt) := by
  have hemp : dests.isEmpty = false := by
    cases dests with
    | nil => exact absurd rfl hne
    | cons a l => rfl
  simp only [executeBackupTaskAsync, hemp, Bool.false_eq_true, if_false]
  refine ⟨?_, ?_, ?_, ?_, ?_⟩
  · simp [runDestinations]
  · intro i
    simp only [runDestinations]
    rw [List.get?_eq_get (by simp), List.get_map]
  · intro d
    cases hd : d.2 with
    | ok m => simp [destLogRow, hd]
    | err m => simp [destLogRow, hd]
    | exn m => simp [destLogRow, hd]
  · by_cases hcond : manual = false ∧ task.cronExpression ≠ [] <;>
      simp [updateTaskAfterRun, hcond]
  · by_cases hcond : manual = false ∧ task.cronExpression ≠ [] <;>
      simp [updateTaskAfterRun, hcond]

theorem execute_run_partial_failure_witness :
    (executeBackupTaskAsync
        { name := ['t'], cronExpression := "0 2 * * *".data,
          compressionEnabled := true, compressionType := "tar.gz".data,
          encryptionEnabled := false, encryptionPassword := none,
          retentionCount := 3, isActive := true,
          lastRunAt := none, nextRunAt := none }
        1 false 10 20 30
        [(7, .ok "备份完成".data), (8, .err "unreachable".data)]
        (fun _ => some 99)).1.lastRunAt = some 30 :=
  (execute_run_partial_failure _ 1 false 10 20 30
    [(7, .ok "备份完成".data), (8, .err "unreachable".data)]
    (fun _ => some 99) (by simp)).2.2.2.1

/-! ## Artifact naming and upload target (`_execute_backup_to_storage`,
backup_service.py lines 257-331) -/

/-- The basename of the temp artifact handed to the transfer gateway
(lines 269-312).  `none` models the paths on which the function returns a
failure before any upload (unsupported compression type, or
compression disabled on a directory source). -/
def artifactBaseName (task : TaskRow) (timestamp : List Char)
    (sourceIsFile : Bool) (sourceBasename : List Char) : Option (List Char) :=
  let base := task.name ++ '_' :: timestamp
  let compressed : Option (List Char) :=
    if task.compressionEnabled then
      if task.compressionType = "tar.gz".data then some (base ++ ".tar.gz".data)
      else if task.compressionType = "zip".data then some (base ++ ".zip".data)
      else none
    else if sourceIsFile then some (base ++ '_' :: sourceBasename)
    else none
  match compressed with
  | none => none
  | some f =>
      if task.encryptionEnabled ∧ task.encryptionPassword.isSome then
        some (f ++ ".encrypted".data)
      else some f

/-- The upload issued at lines 316-323: directory `remote_path.rstrip('/') + '/'`
plus the artifact basename (rclone keeps the basename when the destination
ends in `/`); the orchestrator contributes no other path component. -/
def uploadTarget (task : TaskRow) (remotePath timestamp : List Char)
    (sourceIsFile : Bool) (sourceBasename : List Char) :
    Option (List Char × List Char) :=
  (artifactBaseName task timestamp sourceIsFile sourceBasename).map
    (fun n => (pyRstripSlash remotePath ++ ['/'], n))

/-- C7 counterexample: with compression disabled the artifact is
`{task}_{timestamp}_{source basename}` — underscore plus the whole source
file name — not `{task}_{timestamp}.{ext}` as the claim states. -/
theorem artifact_name_counterexample :
    artifactBaseName
        { name := ['t'], cronExpression := [],
          compressionEnabled := false, compressionType := "tar.gz".data,
          encryptionEnabled := false, encryptionPassword := none,
          retentionCount := 3, isActive := true,
          lastRunAt := none, nextRunAt := none }
        "20240101_120000".data true "db.sqlite".data
      = some "t_20240101_120000_db.sqlite".data ∧
    ¬ ∃ ext : List Char,
        "t_20240101_120000_db.sqlite".data
          = ['t'] ++ '_' :: "20240101_120000".data ++ '.' :: ext := by
  refine ⟨by decide, ?_⟩
  rintro ⟨ext, h⟩
  have hp : "t_20240101_120000.".data.isPrefixOf
      "t_20240101_120000_db.sqlite".data = true := by
    rw [List.isPrefixOf_iff_prefix]
    exact ⟨ext, h.symm⟩
  exact absurd hp (by decide)

/-- C7 (amended): when compression is enabled the artifact handed to the
gateway is `{task}_{timestamp}.tar.gz` or `{task}_{timestamp}.zip`, with
`.encrypted` appended when encryption is on; when compression is disabled
(single-file source) it is `{task}_{timestamp}_{source basename}`, with
`.encrypted` appended likewise; and in every case the upload goes to the
directory `remote_path.rstrip('/') + '/'` with exactly that filename. -/
theorem artifact_naming (task : TaskRow) (remotePath timestamp : List Char)
    (sourceIsFile : Bool) (sourceBasename : List Char) :
    (task.compressionEnabled = true → task.compressionType = "tar.gz".data →
       artifactBaseName task timestamp sourceIsFile sourceBasename
         = some (task.name ++ '_' :: timestamp ++ ".tar.gz".data ++
             (if task.encryptionEnabled ∧ task.encryptionPassword.isSome then
               ".encrypted".data else []))) ∧
    (task.compressionEnabled = true → task.compressionType = "zip".data →
       artifactBaseName task timestamp sourceIsFile sourceBasename
         = some (task.name ++ '_' :: timestamp ++ ".zip".data ++
             (if task.encryptionEnabled ∧ task.encryptionPassword.isSome then
               ".encrypted".data else []))) ∧
    (task.compressionEnabled = false → sourceIsFile = true →
       artifactBaseName task timestamp sourceIsFile sourceBasename
         = some (task.name ++ '_' :: timestamp ++ '_' :: sourceBasename ++
             (if task.encryptionEnabled ∧ task.encryptionPassword.isSome then
               ".encrypted".data else []))) ∧
    (∀ n, artifactBaseName task timestamp sourceIsFile sourceBasename = some n →
       uploadTarget task remotePath timestamp sourceIsFile sourceBasename
         = some (pyRstripSlash remotePath ++ ['/'], n)) := by
  refine ⟨?_, ?_, ?_, ?_⟩
  · intro hc ht
    by_cases he : task.encryptionEnabled ∧ task.encryptionPassword.isSome <;>
      simp [artifactBaseName, hc, ht, he]
  · intro hc ht
    have hne : task.compressionType ≠ "tar.gz".data := by
      rw [ht]; decide
    by_cases he : task.encryptionEnabled ∧ task.encryptionPassword.isSome <;>
      simp [artifactBaseName, hc, ht, hne, he]
  · intro hc hf
    by_cases he : task.encryptionEnabled ∧ task.encryptionPassword.isSome <;>
      simp [artifactBaseName, hc, hf, he]
  · intro n hn
    simp [uploadTarget, hn]

theorem artifact_naming_witness :
    artifactBaseName
        { name := ['t'], cronExpression := [],
          compressionEnabled := true, compressionType := "zip".data,
          encryptionEnabled := true, encryptionPassword := some "cGFzcw==".data,
          retentionCount := 3, isActive := true,
          lastRunAt := none, nextRunAt := none }
        "20240101_120000".data false "db.sqlite".data
      = some ("t".data ++ '_' :: "20240101_120000".data ++ ".zip".data ++
          ".encrypted".data) := by
  have h := (artifact_naming
    { name := ['t'], cronExpression := [],
      compressionEnabled := true, compressionType := "zip".data,
      encryptionEnabled := true, encryptionPassword := some "cGFzcw==".data,
      retentionCount := 3, isActive := true,
      lastRunAt := none, nextRunAt := none }
    "backups/".data "20240101_120000".data false "db.sqlite".data).2.1
    rfl rfl
  rw [h]
  decide

/-! ## Failure handling around upload and cleanup (`_execute_backup_to_storage`,
backup_service.py lines 316-331) -/

/-- The tail of `_execute_backup_to_storage` once the artifact exists: the
returned `(success, message)` as a function of the upload outcome and of the
cleanup's own gateway interactions.  The cleanup call at line 329 is fire-and-
forget — its outcome never reaches the returned result. -/
def uploadAndCleanupResult (uploadOk : Bool) (uploadMsg : List Char)
    (listResult : Option (List (List Char))) (deleteOk : List Char → Bool)
    (taskName : List Char) (retention : Nat) :
    (Bool × List Char) × List (List Char × Bool) :=
  if uploadOk then
    ((true, "备份完成".data), cleanupRun listResult deleteOk taskName retention)
  else ((false, "上传失败: ".data ++ uploadMsg), [])

/-- C8: a failed delete is skipped while the remaining deletes are still
attempted (the set of attempted deletes does not depend on the delete
outcomes), a failed listing issues no delete and returns normally, and a run
whose upload succeeded reports success whatever the cleanup did. -/
theorem cleanup_failures_swallowed (uploadMsg taskName : List Char)
    (retention : Nat) (listResult : Option (List (List Char)))
    (deleteOk deleteOk' : List Char → Bool) (files : List (List Char)) :
    ((cleanupRun (some files) deleteOk taskName retention).map Prod.fst
       = cleanupFilesToDelete taskName retention files) ∧
    ((cleanupRun (some files) deleteOk taskName retention).map Prod.fst
       = (cleanupRun (some files) deleteOk' taskName retention).map Prod.fst) ∧
    cleanupRun none deleteOk taskName retention = [] ∧
    (uploadAndCleanupResult true uploadMsg listResult deleteOk taskName
        retention).1 = (true, "备份完成".data) := by
  have hid : ∀ d : List Char → Bool,
      (Prod.fst ∘ fun n : List Char => (n, d n)) = id := fun _ => rfl
  refine ⟨?_, ?_, rfl, rfl⟩
  · simp only [cleanupRun, cleanupDeleteResults, List.map_map, hid, List.map_id]
  · simp only [cleanupRun, cleanupDeleteResults, List.map_map, hid, List.map_id]

/-! ## The hourly stale-run sweep (`run_scheduled_task_check`,
scheduler_service.py lines 92-129; registered hourly at lines 313-321) -/

/-- The timeout message written by the sweep (scheduler_service.py line 117). -/
def staleTimeoutMessage : List Char := "任务执行超时，已自动标记为失败".data

/-- What the sweep does to one row: rows that are `running` and started
strictly before `now - 6 hours` are forced to `failed` with an end time and
the timeout message (lines 107-117); every other row is untouched. -/
def sweepRow (now : Int) (r : LogRow) : LogRow :=
  if r.status = .running ∧ r.startTime < now - 6 * 3600 then
    { r with status := .failed, endTime := some now,
             errorMessage := some staleTimeoutMessage }
  else r

/-- `run_scheduled_task_check` over the whole log table: the filtered rows are
exactly the ones the loop mutates, so the query+loop is a pointwise map. -/
def runScheduledTaskCheck (now : Int) (logs : List LogRow) : List LogRow :=
  logs.map (sweepRow now)

/-- C9: each sweep run force-fails, with an end time and the timeout message,
exactly the rows that are `running` and started more than 6 hours before the
sweep's current time; all other rows are left unchanged. -/
theorem stale_sweep_characterization (now : Int) (logs : List LogRow) :
    (runScheduledTaskCheck now logs).length = logs.length ∧
    ∀ i : Fin logs.length,
      ((logs.get i).status = .running ∧ (logs.get i).startTime < now - 6 * 3600 →
         (runScheduledTaskCheck now logs).get? i.val
           = some { (logs.get i) with
               status := .failed, endTime := some now,
               errorMessage := some staleTimeoutMessage }) ∧
      (¬ ((logs.get i).status = .running ∧
            (logs.get i).startTime < now - 6 * 3600) →
         (runScheduledTaskCheck now logs).get? i.val = some (logs.get i)) := by
  constructor
  · simp [runScheduledTaskCheck]
  · intro i
    constructor
    · intro hcond
      simp only [runScheduledTaskCheck]
      rw [List.get?_eq_get (by simp), List.get_map]
      show some (sweepRow now (logs.get i)) = _
      unfold sweepRow
      rw [if_pos hcond]
    · intro hcond
      simp only [runScheduledTaskCheck]
      rw [List.get?_eq_get (by simp), List.get_map]
      show some (sweepRow now (logs.get i)) = _
      unfold sweepRow
      rw [if_neg hcond]

theorem stale_sweep_witness :
    (runScheduledTaskCheck 100000
        [{ taskId := 1, status := .running, startTime := 0, endTime := none,
           errorMessage := none, storageConfigId := 2 },
         { taskId := 1, status := .running, startTime := 90000, endTime := none,
           errorMessage := none, storageConfigId := 3 }]).get? 0
      = some { taskId := 1, status := .failed, startTime := 0,
               endTime := some 100000,
               errorMessage := some staleTimeoutMessage,
               storageConfigId := 2 } := by
  have h := (stale_sweep_characterization 100000
    [{ taskId := 1, status := .running, startTime := 0, endTime := none,
       errorMessage := none, storageConfigId := 2 },
     { taskId := 1, status := .running, startTime := 90000, endTime := none,
       errorMessage := none, storageConfigId := 3 }]).2
    ⟨0, by decide⟩ |>.1 ⟨by decide, by decide⟩
  exact h

/-! ## The synchronous acceptance gate (`run_backup_task`,
backup_service.py lines 119-156) -/

structure Db where
  tasks : List (Nat × TaskRow)
  logs : List LogRow

/-- `BackupTask.query.get(task_id)`. -/
def findTask (db : Db) (taskId : Nat) : Option TaskRow :=
  (db.tasks.find? (fun p => p.1 == taskId)).map Prod.snd

/-- `BackupLog.query.filter_by(task_id=..., status='running').first()` is
non-null. -/
def hasRunningLog (db : Db) (taskId : Nat) : Bool :=
  db.logs.any (fun l => l.taskId == taskId && l.status == RunStatus.running)

inductive RunReject
  | taskNotFound
  | taskInactive
  | alreadyRunning
deriving DecidableEq, Repr

/-- The synchronous part of `run_backup_task` (lines 119-152): the three
rejection checks in order; on acceptance a daemon thread is spawned and the
call returns — the synchronous call itself never writes a row or mutates the
task, so the database component is returned unchanged on every path. -/
def run_backup_task (db : Db) (taskId : Nat) (manual : Bool) :
    Except RunReject Unit × Db :=
  match findTask db taskId with
  | none => (.error .taskNotFound, db)
  | some t =>
      if t.isActive = false then (.error .taskInactive, db)
      else if hasRunningLog db taskId then (.error .alreadyRunning, db)
      else (.ok (), db)

/-- `true` iff the call returned a rejection. -/
def isReject (e : Except RunReject Unit) : Bool :=
  match e with
  | .error _ => true
  | .ok _ => false

/-- C4: `runTask` rejects exactly when the task is missing, inactive, or has a
`running` log row, and on every path — rejection or acceptance — the
synchronous call leaves the database untouched (no run row, no task change). -/
theorem run_backup_task_rejects_iff (db : Db) (taskId : Nat) (manual : Bool) :
    (isReject (run_backup_task db taskId manual).1 = true ↔
       findTask db taskId = none ∨
       (∃ t, findTask db taskId = some t ∧
          (t.isActive = false ∨ hasRunningLog db taskId = true))) ∧
    (run_backup_task db taskId manual).2 = db := by
  constructor
  · cases hfind : findTask db taskId with
    | none => simp [run_backup_task, hfind, isReject]
    | some t =>
        by_cases hact : t.isActive = false
        · simp [run_backup_task, hfind, hact, isReject]
        · by_cases hrun : hasRunningLog db taskId
          · simp [run_backup_task, hfind, hact, hrun, isReject]
          · simp [run_backup_task, hfind, hact, hrun, isReject]
  · cases hfind : findTask db taskId with
    | none => simp [run_backup_task, hfind]
    | some t =>
        by_cases hact : t.isActive = false
        · simp [run_backup_task, hfind, hact]
        · by_cases hrun : hasRunningLog db taskId
          · simp [run_backup_task, hfind, hact, hrun]
          · simp [run_backup_task, hfind, hact, hrun]

/-! ## C5: one running row per task, as a transition system

Snapshots are the states after each `db.session.commit()`.  The operations
are the ones the claim lists: `run_backup_task` acceptance (the gate at
lines 129-136 plus, per the claim's exclusion of the documented
check-then-act race, no other in-flight execution of the same task), the
per-destination steps of `_execute_backup_task_async` (create a `running`
row and commit, lines 196-204; drive it to a terminal status and commit,
lines 206-230 — the next row is only created after that), and the stale-run
sweep.  An in-flight execution is an `ExecEntry`; `openLog` is the index of
its currently `running` row, `none` between destinations. -/

structure ExecEntry where
  task : Nat
  remaining : Nat
  openLog : Option Nat
deriving DecidableEq, Repr

structure SysState where
  logs : List LogRow
  execs : List ExecEntry
deriving Repr

/-- Replace the element at index `j` (if any) by `f` of it. -/
def listModify (f : α → α) : Nat → List α → List α
  | _, [] => []
  | 0, a :: l => f a :: l
  | n + 1, a :: l => a :: listModify f n l

theorem length_listModify (f : α → α) :
    ∀ (j : Nat) (l : List α), (listModify f j l).length = l.length
  | j, [] => by cases j <;> rfl
  | 0, _ :: _ => rfl
  | n + 1, a :: l => by simp [listModify, length_listModify f n l]

theorem get?_listModify (f : α → α) :
    ∀ (j : Nat) (l : List α) (k : Nat),
      (listModify f j l).get? k
        = if k = j then (l.get? k).map f else l.get? k
  | j, [], k => by cases j <;> simp [listModify]
  | 0, a :: l, 0 => by simp [listModify]
  | 0, a :: l, k + 1 => by simp [listModify]
  | n + 1, a :: l, 0 => by simp [listModify]
  | n + 1, a :: l, k + 1 => by
      have ih := get?_listModify f n l k
      simp only [listModify, List.get?_cons_succ, ih]
      by_cases hkn : k = n
      · simp [hkn]
      · simp [hkn, fun h => hkn (Nat.succ_injective h)]

/-- One commit-level step of the system. -/
inductive SysStep : SysState → SysState → Prop
  | accept (s : SysState) (t nDests : Nat)
      (hgate : ∀ l ∈ s.logs, ¬ (l.taskId = t ∧ l.status = RunStatus.running))
      (hnoexec : ∀ e ∈ s.execs, e.task ≠ t) :
      SysStep s ⟨s.logs, ⟨t, nDests, none⟩ :: s.execs⟩
  | openRow (s : SysState) (i : Fin s.execs.length) (startT : Int) (sid : Nat)
      (hrem : 0 < (s.execs.get i).remaining)
      (hnone : (s.execs.get i).openLog = none) :
      SysStep s
        ⟨s.logs ++
           [{ taskId := (s.execs.get i).task, status := .running,
              startTime := startT, endTime := none, errorMessage := none,
              storageConfigId := sid }],
         s.execs.set i.val
           { s.execs.get i with openLog := some s.logs.length }⟩
  | closeRow (s : SysState) (i : Fin s.execs.length) (j : Nat) (ok : Bool)
      (endT : Int) (msg : Option (List Char))
      (hopen : (s.execs.get i).openLog = some j) :
      SysStep s
        ⟨listModify
           (fun r =>
             { r with
               status := if ok then .success else .failed,
               endTime := some endT, errorMessage := msg }) j s.logs,
         s.execs.set i.val
           { s.execs.get i with
             remaining := (s.execs.get i).remaining - 1, openLog := none }⟩
  | finish (s : SysState) (i : Fin s.execs.length)
      (hdone : (s.execs.get i).remaining = 0)
      (hnone : (s.execs.get i).openLog = none) :
      SysStep s ⟨s.logs, s.execs.eraseIdx i.val⟩
  | sweep (s : SysState) (now : Int) :
      SysStep s ⟨runScheduledTaskCheck now s.logs, s.execs⟩

/-- Every `running` row is the open row of some in-flight execution of the
same task. -/
def RowsPointed (s : SysState) : Prop :=
  ∀ (j : Nat) (r : LogRow), s.logs.get? j = some r →
    r.status = RunStatus.running →
    ∃ e ∈ s.execs, e.task = r.taskId ∧ e.openLog = some j

/-- At most one in-flight execution per task. -/
def ExecsDistinct (s : SysState) : Prop :=
  (s.execs.map ExecEntry.task).Nodup

/-- The inductive invariant. -/
def SysInv (s : SysState) : Prop := RowsPointed s ∧ ExecsDistinct s

/-- Number of `running` rows of a task. -/
def runningCount (t : Nat) (logs : List LogRow) : Nat :=
  (logs.filter (fun l => l.taskId == t && l.status == RunStatus.running)).length

theorem length_filter_le_one {α} (p : α → Bool) (l : List α)
    (h : ∀ (j₁ j₂ : Nat) (x₁ x₂ : α), l.get? j₁ = some x₁ → l.get? j₂ = some x₂ →
        p x₁ → p x₂ → j₁ = j₂) :
    (l.filter p).length ≤ 1 := by
  induction l with
  | nil => simp
  | cons a l ih =>
      by_cases hpa : p a
      · rw [List.filter_cons_of_pos hpa]
        have hnil : l.filter p = [] := by
          rw [List.filter_eq_nil_iff]
          intro x hx hpx
          obtain ⟨k, hk⟩ := List.get?_of_mem hx
          have := h 0 (k + 1) a x rfl (by simpa using hk) hpa hpx
          omega
        simp [hnil]
      · rw [List.filter_cons_of_neg hpa]
        apply ih
        intro j₁ j₂ x₁ x₂ h₁ h₂ hp₁ hp₂
        have := h (j₁ + 1) (j₂ + 1) x₁ x₂ (by simpa using h₁) (by simpa using h₂)
          hp₁ hp₂
        omega

theorem sysInv_runningCount (s : SysState) (hinv : SysInv s) (t : Nat) :
    runningCount t s.logs ≤ 1 := by
  apply length_filter_le_one
  intro j₁ j₂ x₁ x₂ h₁ h₂ hp₁ hp₂
  have hx₁ : x₁.taskId = t ∧ x₁.status = RunStatus.running := by simpa using hp₁
  have hx₂ : x₂.taskId = t ∧ x₂.status = RunStatus.running := by simpa using hp₂
  obtain ⟨e₁, he₁, ht₁, ho₁⟩ := hinv.1 j₁ x₁ h₁ hx₁.2
  obtain ⟨e₂, he₂, ht₂, ho₂⟩ := hinv.1 j₂ x₂ h₂ hx₂.2
  have htasks : e₁.task = e₂.task := by rw [ht₁, ht₂, hx₁.1, hx₂.1]
  have he : e₁ = e₂ := List.inj_on_of_nodup_map hinv.2 he₁ he₂ htasks
  have hsome : some j₁ = some j₂ := by rw [← ho₁, he, ho₂]
  exact Option.some_injective _ hsome

theorem mem_set_of_ne {α} (l : List α) (i : Fin l.length) (x e : α)
    (he : e ∈ l) (hne : e ≠ l.get i) : e ∈ l.set i.val x := by
  obtain ⟨k, hk⟩ := List.get?_of_mem he
  have hklen : k < l.length := by
    by_contra hge
    rw [List.get?_len_le (Nat.le_of_not_lt hge)] at hk
    exact Option.noConfusion hk
  have hki : k ≠ i.val := by
    intro hkeq
    apply hne
    have : l.get? i.val = some e := hkeq ▸ hk
    rw [List.get?_eq_get i.isLt] at this
    exact (Option.some_injective _ this).symm
  have : (l.set i.val x).get? k = some e := by
    rw [List.get?_eq_getElem?, List.getElem?_set_ne (fun h => hki h.symm),
      ← List.get?_eq_getElem?]
    exact hk
  exact List.get?_mem this

theorem mem_set_self {α} (l : List α) (i : Fin l.length) (x : α) :
    x ∈ l.set i.val x := by
  have : (l.set i.val x).get? i.val = some x := by
    rw [List.get?_eq_getElem?, List.getElem?_set_self i.isLt]
  exact List.get?_mem this

theorem set_get_self {α} (l : List α) (i : Nat) (h : i < l.length) :
    l.set i (l.get ⟨i, h⟩) = l := by
  apply List.ext_get?
  intro n
  by_cases hn : n = i
  · subst hn
    rw [List.get?_eq_getElem?, List.getElem?_set_self h]
    exact (List.get?_eq_get h).symm
  · rw [List.get?_eq_getElem?, List.getElem?_set_ne (fun hh => hn hh.symm),
      ← List.get?_eq_getElem?]

theorem nodup_map_set {α β} (f : α → β) (l : List α) (i : Fin l.length) (x : α)
    (hx : f x = f (l.get i)) (h : (l.map f).Nodup) :
    ((l.set i.val x).map f).Nodup := by
  rw [List.map_set, hx]
  have hget : f (l.get i) = (l.map f).get ⟨i.val, by simp⟩ := by
    rw [List.get_map]
  rw [hget, set_get_self]
  exact h

theorem mem_eraseIdx_of_ne {α} :
    ∀ (l : List α) (i : Nat) (hi : i < l.length) (e : α),
      e ∈ l → e ≠ l.get ⟨i, hi⟩ → e ∈ l.eraseIdx i
  | a :: l, 0, _, e, he, hne => by
      rcases List.mem_cons.mp he with rfl | h
      · exact absurd rfl hne
      · simpa [List.eraseIdx] using h
  | a :: l, i + 1, hi, e, he, hne => by
      rcases List.mem_cons.mp he with rfl | h
      · simp [List.eraseIdx]
      · have hrec := mem_eraseIdx_of_ne l i (by simpa using hi) e h
          (fun hh => hne (by simpa using hh))
        simp [List.eraseIdx, hrec]

theorem sysInv_step {s s' : SysState} (hst : SysStep s s') (hinv : SysInv s) :
    SysInv s' := by
  obtain ⟨hrows, hdist⟩ := hinv
  cases hst with
  | accept t nDests hgate hnoexec =>
      constructor
      · intro j r hj hr
        obtain ⟨e, he, ht, ho⟩ := hrows j r hj hr
        exact ⟨e, List.mem_cons_of_mem _ he, ht, ho⟩
      · refine List.nodup_cons.mpr ⟨?_, hdist⟩
        intro hmem
        obtain ⟨e, he, het⟩ := List.mem_map.mp hmem
        exact hnoexec e he het
  | openRow i startT sid hrem hnone =>
      constructor
      · intro j r hj hr
        by_cases hjlen : j < s.logs.length
        · have hj' : s.logs.get? j = some r := by
            rw [← hj, List.get?_append hjlen]
          obtain ⟨e, he, ht, ho⟩ := hrows j r hj' hr
          have hne : e ≠ s.execs.get i := by
            intro heq
            rw [heq, hnone] at ho
            exact Option.noConfusion ho
          exact ⟨e, mem_set_of_ne _ i _ e he hne, ht, ho⟩
        · have hjeq : j = s.logs.length := by
            by_contra hne
            have hge : s.logs.length + 1 ≤ j := by
              have := Nat.le_of_not_lt hjlen
              omega
            rw [List.get?_len_le (by simpa using hge)] at hj
            exact Option.noConfusion hj
          subst hjeq
          rw [List.get?_concat_length] at hj
          have hr' := Option.some_injective _ hj
          refine ⟨{ s.execs.get i with openLog := some s.logs.length },
            mem_set_self _ i _, ?_, rfl⟩
          rw [← hr']
      · exact nodup_map_set _ _ i _ rfl hdist
  | closeRow i j₀ ok endT msg hopen =>
      constructor
      · intro j r hj hr
        rw [get?_listModify] at hj
        by_cases hjj : j = j₀
        · rw [if_pos hjj] at hj
          obtain ⟨r₀, hr₀, hfr₀⟩ := Option.map_eq_some'.mp hj
          have : r.status = (if ok then RunStatus.success else RunStatus.failed) := by
            rw [← hfr₀]
          rw [hr] at this
          cases ok <;> simp at this
        · rw [if_neg hjj] at hj
          obtain ⟨e, he, ht, ho⟩ := hrows j r hj hr
          have hne : e ≠ s.execs.get i := by
            intro heq
            rw [heq, hopen] at ho
            exact hjj (Option.some_injective _ ho.symm)
          exact ⟨e, mem_set_of_ne _ i _ e he hne, ht, ho⟩
      · exact nodup_map_set _ _ i _ rfl hdist
  | finish i hdone hnone =>
      constructor
      · intro j r hj hr
        obtain ⟨e, he, ht, ho⟩ := hrows j r hj hr
        have hne : e ≠ s.execs.get i := by
          intro heq
          rw [heq, hnone] at ho
          exact Option.noConfusion ho
        exact ⟨e, mem_eraseIdx_of_ne _ i.val i.isLt e he hne, ht, ho⟩
      · exact List.Nodup.sublist ((List.eraseIdx_sublist _ _).map _) hdist
  | sweep now =>
      constructor
      · intro j r hj hr
        simp only [runScheduledTaskCheck] at hj
        rw [List.get?_map] at hj
        obtain ⟨r₀, hr₀, hsr₀⟩ := Option.map_eq_some'.mp hj
        by_cases hcond : r₀.status = RunStatus.running ∧
            r₀.startTime < now - 6 * 3600
        · exfalso
          have : r.status = RunStatus.failed := by
            rw [← hsr₀]
            unfold sweepRow
            rw [if_pos hcond]
          rw [hr] at this
          exact RunStatus.noConfusion this
        · have hreq : r = r₀ := by
            rw [← hsr₀]
            unfold sweepRow
            rw [if_neg hcond]
          subst hreq
          exact hrows j r hr₀ hr
      · exact hdist

/-- The empty initial state: no rows, no in-flight executions. -/
def SysInit : SysState := ⟨[], []⟩

/-- States reachable from the initial state by the modelled operations. -/
def SysReachable (s : SysState) : Prop := Relation.ReflTransGen SysStep SysInit s

theorem sysInv_reachable (s : SysState) (h : SysReachable s) : SysInv s := by
  induction h with
  | refl =>
      refine ⟨?_, by simp [ExecsDistinct, SysInit]⟩
      intro j r hj _
      simp [SysInit] at hj
  | tail _ hstep ih => exact sysInv_step hstep ih

/-- C5: at every snapshot reachable by the modelled operations (runTask
acceptance outside the documented check-then-act race, the per-destination
open/close steps, run completion, and the stale-run sweep), each task has at
most one BackupRun row with status `running`. -/
theorem at_most_one_running_per_task (s : SysState) (h : SysReachable s)
    (t : Nat) : runningCount t s.logs ≤ 1 :=
  sysInv_runningCount s (sysInv_reachable s h) t

theorem at_most_one_running_per_task_witness :
    runningCount 5 (SysState.mk
      [{ taskId := 5, status := .running, startTime := 0, endTime := none,
         errorMessage := none, storageConfigId := 7 }]
      [{ task := 5, remaining := 1, openLog := some 0 }]).logs ≤ 1 := by
  apply at_most_one_running_per_task _ _ 5
  have h1 : SysStep SysInit ⟨[], [⟨5, 1, none⟩]⟩ :=
    SysStep.accept SysInit 5 1
      (by intro l hl; exact absurd hl (List.not_mem_nil l))
      (by intro e he; exact absurd he (List.not_mem_nil e))
  have h2 : SysStep ⟨[], [⟨5, 1, none⟩]⟩
      (SysState.mk
        [{ taskId := 5, status := .running, startTime := 0, endTime := none,
           errorMessage := none, storageConfigId := 7 }]
        [{ task := 5, remaining := 1, openLog := some 0 }]) :=
    SysStep.openRow ⟨[], [⟨5, 1, none⟩]⟩ ⟨0, by decide⟩ 0 7
      (by decide) (by decide)
  exact Relation.ReflTransGen.tail
    (Relation.ReflTransGen.tail Relation.ReflTransGen.refl h1) h2

/-! ## C6: file encryption (`_encrypt_file` / `_generate_key_from_password`,
backup_service.py lines 384-419)

`_encrypt_file` base64-decodes the stored password, derives a Fernet key —
`base64.urlsafe_b64encode(sha256(password).digest())` — and encrypts the file
bytes with Fernet, an authenticated symmetric cipher from the external
`cryptography` library.  Decryption of a backup artifact is not implemented
anywhere in the repository (backups are never read back); the spec's round
trip is Fernet decryption under the same derived key.  The external cipher is
modelled by its contract and the external `hashlib.sha256` digest as a
function parameter. -/

/-- Contract of an authenticated symmetric cipher over byte strings (the
external Fernet): decrypting with the encrypting key restores the plaintext;
decrypting with any other key fails the integrity check with an error. -/
structure AuthCipher where
  enc : List Nat → List Nat → List Nat
  dec : List Nat → List Nat → Option (List Nat)
  dec_enc : ∀ k d, dec k (enc k d) = some d
  dec_wrong : ∀ k k' d, k' ≠ k → dec k' (enc k d) = none

/-- `_generate_key_from_password` (lines 415-419):
`base64.urlsafe_b64encode(sha256(password).digest())`, taken as the bytes of
the base64 text. -/
def generate_key_from_password (digest : List Nat → List Nat)
    (password : List Nat) : List Nat :=
  (b64EncodeWith b64AlphaUrl (digest password)).map Char.toNat

/-- `_encrypt_file` (lines 384-404) on the file's bytes: the stored password
is base64-decoded (line 388), the key derived (line 391), the data encrypted
(line 397). -/
def encrypt_file_data (C : AuthCipher) (digest : List Nat → List Nat)
    (storedPassword : List Char) (data : List Nat) : List Nat :=
  C.enc (generate_key_from_password digest (decrypt_password storedPassword))
    data

/-- Modelled from the spec: decryption of a backup artifact is not in the
repository; per §4.2/§8 of the spec it is the authenticated cipher's
decryption under the key derived from the password the same way. -/
def decrypt_file_data (C : AuthCipher) (digest : List Nat → List Nat)
    (storedPassword : List Char) (ciphertext : List Nat) :
    Option (List Nat) :=
  C.dec (generate_key_from_password digest (decrypt_password storedPassword))
    ciphertext

/-- Decode a derived key (base64 text bytes) back to the digest bytes. -/
def b64DecodeCodes (alpha : List Char) (codes : List Nat) : List Nat :=
  b64DecSex (codes.map (fun c => b64ValOf alpha (Char.ofNat c)))

theorem b64DecodeCodes_encode (alpha : List Char)
    (halpha : ∀ s < 65, b64ValOf alpha (b64CharOf alpha s) = s)
    (bytes : List Nat) (h : ∀ b ∈ bytes, b < 256) :
    b64DecodeCodes alpha ((b64EncodeWith alpha bytes).map Char.toNat)
      = bytes := by
  unfold b64DecodeCodes
  rw [List.map_map]
  have hfun : ((fun c => b64ValOf alpha (Char.ofNat c)) ∘ Char.toNat)
      = b64ValOf alpha := by
    funext c
    simp [Function.comp, Char.ofNat_toNat]
  rw [hfun]
  exact b64DecodeWith_b64EncodeWith alpha halpha bytes h

theorem generate_key_inj (digest : List Nat → List Nat) (p q : List Nat)
    (hp : ∀ b ∈ digest p, b < 256) (hq : ∀ b ∈ digest q, b < 256)
    (heq : generate_key_from_password digest p
      = generate_key_from_password digest q) :
    digest p = digest q := by
  have h1 := b64DecodeCodes_encode b64AlphaUrl b64ValOf_b64CharOf_url
    (digest p) hp
  have h2 := b64DecodeCodes_encode b64AlphaUrl b64ValOf_b64CharOf_url
    (digest q) hq
  rw [← h1, ← h2]
  unfold generate_key_from_password at heq
  rw [heq]

/-- C6: encrypting a byte string and decrypting with the same password
restores it exactly; decrypting with a password whose digest differs fails
deterministically via the authenticated cipher's integrity check — the key
being derived from a digest of the password. -/
theorem encrypt_file_roundtrip (C : AuthCipher) (digest : List Nat → List Nat)
    (stored other : List Char) (data : List Nat)
    (hb : ∀ b ∈ digest (decrypt_password stored), b < 256)
    (hb' : ∀ b ∈ digest (decrypt_password other), b < 256) :
    decrypt_file_data C digest stored
        (encrypt_file_data C digest stored data) = some data ∧
    (digest (decrypt_password other) ≠ digest (decrypt_password stored) →
      decrypt_file_data C digest other
          (encrypt_file_data C digest stored data) = none) := by
  constructor
  · exact C.dec_enc _ _
  · intro hne
    apply C.dec_wrong
    intro hkeq
    exact hne (generate_key_inj digest _ _ hb' hb hkeq)

/-- A concrete cipher satisfying the authenticated-cipher contract, used to
instantiate the round-trip theorem on concrete inputs. -/
def tagCipher : AuthCipher where
  enc k d := k.length :: (k ++ d)
  dec k c :=
    match c with
    | [] => none
    | n :: rest =>
        if n = k.length ∧ rest.take k.length = k then some (rest.drop k.length)
        else none
  dec_enc := by
    intro k d
    simp [List.take_left, List.drop_left]
  dec_wrong := by
    intro k k' d hne
    simp only
    rw [if_neg]
    rintro ⟨hlen, htake⟩
    rw [List.take_left' hlen] at htake
    exact hne htake.symm

theorem encrypt_file_roundtrip_witness :
    decrypt_file_data tagCipher (fun l => [l.length % 256])
        (encrypt_password [1, 2])
        (encrypt_file_data tagCipher (fun l => [l.length % 256])
          (encrypt_password [1, 2]) [9, 8, 7])
      = some [9, 8, 7] ∧
    decrypt_file_data tagCipher (fun l => [l.length % 256])
        (encrypt_password [1, 2, 3])
        (encrypt_file_data tagCipher (fun l => [l.length % 256])
          (encrypt_password [1, 2]) [9, 8, 7])
      = none := by
  have h := encrypt_file_roundtrip tagCipher (fun l => [l.length % 256])
    (encrypt_password [1, 2]) (encrypt_password [1, 2, 3]) [9, 8, 7]
    (by decide) (by decide)
  exact ⟨h.1, h.2 (by decide)⟩
